import Mathlib

/-!
Shallow embedding of `src/arxiv_collector.py` (class `ArxivCollector`) and
proofs of the specification claims about it.

The SQLite tables become Lean lists of rows; `INSERT OR IGNORE` becomes a
membership test on the relevant key; the pagination loop of
`process_keyword` becomes a fuel-indexed recursion; the external API
(`query_arxiv`) and the cancellation flag (`shutdown_requested`) become
explicit parameters (`fetch`, `sd`); logical time advances by one per loop
iteration, so the cancellation flag is a function of time read at the same
checkpoints as in the source.
-/

set_option autoImplicit false

namespace ArxivCollector

/-- `self.batch_size = 500` (results per request). -/
def batch_size : Nat := 500

/-- `self.max_results_per_keyword = 2000` (API limit). -/
def max_results_per_keyword : Nat := 2000

/-- The values the `status` column of the `keywords` table takes in the source. -/
inductive KStatus
  | pending
  | processing
  | completed
  | failed
  | interrupted
deriving DecidableEq

/-- One row of the `papers` table (primary key `arxiv_id`). -/
structure Paper where
  arxiv_id : String
  title : String
  authors : String
  abstract : String
  categories : String
  published_date : String
  updated_date : String
  pdf_url : String
  entry_url : String
deriving DecidableEq

/-- One row of the `keywords` table; column defaults as in `setup_database`. -/
structure KeywordRow where
  id : Nat
  keyword : String
  total_results : Nat := 0
  processed_results : Nat := 0
  status : KStatus := .pending
  started_at : Option Nat := none
  completed_at : Option Nat := none
  error_message : Option String := none
deriving DecidableEq

/-- The database: the three tables created by `setup_database`.
`paper_keywords` has composite primary key `(paper_id, keyword_id)`. -/
structure DB where
  papers : List Paper := []
  keywords : List KeywordRow := []
  paper_keywords : List (String × Nat) := []
deriving DecidableEq

/-- `INSERT OR IGNORE INTO papers ...` (store_papers, first statement):
inserts the row unless a row with the same `arxiv_id` primary key exists;
returns whether a row was inserted (`cursor.rowcount > 0`). -/
def insertPaper (db : DB) (p : Paper) : DB × Bool :=
  if ∃ q ∈ db.papers, q.arxiv_id = p.arxiv_id then (db, false)
  else ({ db with papers := db.papers ++ [p] }, true)

/-- `INSERT OR IGNORE INTO paper_keywords ...` (store_papers, second statement):
inserts the pair unless it is already present (composite primary key). -/
def linkPaperKeyword (db : DB) (pid : String) (kid : Nat) : DB × Bool :=
  if (pid, kid) ∈ db.paper_keywords then (db, false)
  else ({ db with paper_keywords := db.paper_keywords ++ [(pid, kid)] }, true)

/-- `ArxivCollector.store_papers`: for each paper, insert-or-ignore the paper
row, then insert-or-ignore the link row; `stored_count` is incremented when
`cursor.rowcount > 0` after the *link* insertion. -/
def store_papers : DB → List Paper → Nat → DB × Nat
  | db, [], _ => (db, 0)
  | db, p :: rest, kid =>
    let db1 := (insertPaper db p).1
    let lk := linkPaperKeyword db1 p.arxiv_id kid
    let r := store_papers lk.1 rest kid
    (r.1, (if lk.2 then 1 else 0) + r.2)

/-- `UPDATE keywords SET ... WHERE id = ?`: apply `f` to the rows whose `id`
matches. -/
def updateKeyword (db : DB) (kid : Nat) (f : KeywordRow → KeywordRow) : DB :=
  { db with keywords := db.keywords.map fun r => if r.id = kid then f r else r }

/-- `SELECT * FROM keywords WHERE id = ?` (first matching row). -/
def getRow (db : DB) (kid : Nat) : Option KeywordRow :=
  db.keywords.find? fun r => r.id == kid

/-- The rows of the `papers` table carrying a given identifier. -/
def paperRows (db : DB) (id : String) : List Paper :=
  db.papers.filter fun q => q.arxiv_id == id

/-- A sequence of page commits (each a paper list together with the keyword id
it is stored under), applied through `store_papers`; models any number of
pages across any number of runs. -/
def commitBatches (db : DB) (batches : List (List Paper × Nat)) : DB :=
  batches.foldl (fun d b => (store_papers d b.1 b.2).1) db

/-- Number of occurrences of a pair in the link table. -/
def pairCount (x : String × Nat) : List (String × Nat) → Nat
  | [] => 0
  | y :: l => (if y = x then 1 else 0) + pairCount x l

/-- Outcome of one `query_arxiv` call: a page of papers together with the
feed's `opensearch_totalresults`, or a raised exception carrying `str(e)`. -/
inductive FetchResult
  | ok (papers : List Paper) (total : Nat)
  | err (msg : String)
deriving DecidableEq

/-- The local state of `process_keyword`'s pagination loop, together with the
database, the logical time `t` (advanced once per loop iteration) and the
number of page requests issued so far. -/
structure PKSt where
  db : DB
  total_processed : Nat
  total_stored : Nat
  total_results : Nat
  start : Nat
  t : Nat
  nfetches : Nat
deriving DecidableEq

/-- How `process_keyword`'s loop body ends: normally (break or loop
condition), or by the exception propagating out of `query_arxiv`. -/
inductive PKExit
  | normal
  | fetchErr (msg : String)
deriving DecidableEq

/-- `UPDATE keywords SET total_results = ?, processed_results = ? WHERE id = ?`
(the per-page progress update). -/
def pageUpd (tr tp : Nat) (r : KeywordRow) : KeywordRow :=
  { r with total_results := tr, processed_results := tp }

/-- `UPDATE keywords SET status = ?, completed_at = ? WHERE id = ?`
(the completed/interrupted transition). -/
def doneUpd (st : KStatus) (t : Nat) (r : KeywordRow) : KeywordRow :=
  { r with status := st, completed_at := some t }

/-- `UPDATE keywords SET status = 'failed', error_message = ?, completed_at = ?`
(the failure transition). -/
def failUpd (m : String) (t : Nat) (r : KeywordRow) : KeywordRow :=
  { r with status := .failed, error_message := some m, completed_at := some t }

/-- The body of one successful loop iteration of `process_keyword`:
clamp the reported total on the first page, store the page, and run the
progress `UPDATE` on the keyword row. -/
def commitPage (s : PKSt) (kid : Nat) (papers : List Paper) (apiTotal : Nat) : PKSt :=
  let tr := if s.start = 0 then min apiTotal max_results_per_keyword else s.total_results
  let sp := store_papers s.db papers kid
  let tp := s.total_processed + papers.length
  let db2 := updateKeyword sp.1 kid (pageUpd tr tp)
  { db := db2, total_processed := tp, total_stored := s.total_stored + sp.2,
    total_results := tr, start := s.start, t := s.t + 1, nfetches := s.nfetches + 1 }

/-- The `while start < self.max_results_per_keyword` loop of
`process_keyword`: check the cancellation flag, fetch a page of size
`min(batch_size, max_results_per_keyword - start)`, commit it, break on a
page shorter than `batch_size`, else advance `start` by the number of
papers actually returned.  `fuel` bounds the recursion; `pkFuel` below is
enough for every execution. -/
def pkLoop (fetch : String → Nat → Nat → FetchResult) (sd : Nat → Bool)
    (kw : String) (kid : Nat) : Nat → PKSt → PKSt × PKExit
  | 0, s => (s, .normal)
  | fuel + 1, s =>
    if s.start < max_results_per_keyword then
      if sd s.t then (s, .normal)
      else
        match fetch kw s.start (min batch_size (max_results_per_keyword - s.start)) with
        | .err m => ({ s with t := s.t + 1, nfetches := s.nfetches + 1 }, .fetchErr m)
        | .ok papers apiTotal =>
          let s1 := commitPage s kid papers apiTotal
          if papers.length < batch_size then (s1, .normal)
          else pkLoop fetch sd kw kid fuel { s1 with start := s.start + papers.length }
    else (s, .normal)

/-- Each recursive call of `pkLoop` advances `start` by at least
`batch_size`, so this fuel is enough for every execution. -/
def pkFuel : Nat := max_results_per_keyword / batch_size + 1

def initSt (db : DB) (t0 : Nat) : PKSt :=
  { db := db, total_processed := 0, total_stored := 0, total_results := 0,
    start := 0, t := t0, nfetches := 0 }

/-- `UPDATE keywords SET status = 'processing', started_at = ?` (the
transition at the top of `process_keyword`). -/
def procUpd (t0 : Nat) (r : KeywordRow) : KeywordRow :=
  { r with status := .processing, started_at := some t0 }

/-- The `UPDATE keywords SET status = 'processing', started_at = ...`
at the top of `process_keyword`. -/
def markProcessing (db : DB) (kid : Nat) (t0 : Nat) : DB :=
  updateKeyword db kid (procUpd t0)

/-- `process_keyword` up to the end of its pagination loop. -/
def pkRun (fetch : String → Nat → Nat → FetchResult) (sd : Nat → Bool)
    (kw : String) (kid : Nat) (db : DB) (t0 : Nat) : PKSt × PKExit :=
  pkLoop fetch sd kw kid pkFuel (initSt (markProcessing db kid t0) t0)

/-- `ArxivCollector.process_keyword`: mark the keyword `processing`, run the
pagination loop, then mark it `interrupted`/`completed` (reading the
cancellation flag) or, on an exception, `failed` with the error message —
in each case setting `completed_at`.  The exception is re-raised to the
caller as the returned `PKExit`. -/
def process_keyword (fetch : String → Nat → Nat → FetchResult) (sd : Nat → Bool)
    (kw : String) (kid : Nat) (db : DB) (t0 : Nat) : DB × PKSt × PKExit :=
  let r := pkRun fetch sd kw kid db t0
  match r.2 with
  | .fetchErr m =>
    (updateKeyword r.1.db kid (failUpd m r.1.t), r.1, .fetchErr m)
  | .normal =>
    let st := if sd r.1.t then KStatus.interrupted else KStatus.completed
    (updateKeyword r.1.db kid (doneUpd st r.1.t), r.1, .normal)

/-- `ArxivCollector.get_pending_keywords`:
`SELECT id, keyword FROM keywords WHERE status IN ('pending','failed') ORDER BY id`. -/
def get_pending_keywords (db : DB) : List (Nat × String) :=
  (db.keywords.filter fun r => r.status == KStatus.pending || r.status == KStatus.failed).map
    fun r => (r.id, r.keyword)

/-- `AUTOINCREMENT` id for the next keyword row. -/
def nextKeywordId (db : DB) : Nat :=
  (db.keywords.foldl (fun m r => max m r.id) 0) + 1

/-- `ArxivCollector.load_keywords`: `INSERT OR IGNORE INTO keywords (keyword)`
for each line of the input file (`keyword` is UNIQUE). -/
def load_keywords (db : DB) (kws : List String) : DB :=
  kws.foldl (fun d kw =>
    if ∃ r ∈ d.keywords, r.keyword = kw then d
    else { d with keywords := d.keywords ++ [{ id := nextKeywordId d, keyword := kw }] }) db

/-- The `for keyword_id, keyword in pending_keywords` loop of
`ArxivCollector.run`: check the cancellation flag before each keyword,
process it, catch any exception and continue.  Returns the final database,
the final time, and the list of keywords actually processed. -/
def runKeywords (fetch : String → Nat → Nat → FetchResult) (sd : Nat → Bool) :
    List (Nat × String) → DB → Nat → DB × Nat × List (Nat × String)
  | [], db, t => (db, t, [])
  | (kid, kw) :: rest, db, t =>
    if sd t then (db, t, [])
    else
      let pr := process_keyword fetch sd kw kid db t
      let rr := runKeywords fetch sd rest pr.1 pr.2.1.t
      (rr.1, rr.2.1, (kid, kw) :: rr.2.2)

structure RunOut where
  db : DB
  t : Nat
  processed : List (Nat × String)
  loadedFile : Bool
deriving DecidableEq

/-- `ArxivCollector.run`: load the keywords file only when not resuming or
when the database file does not exist, compute the pending list once, and
iterate it. -/
def run (fetch : String → Nat → Nat → FetchResult) (sd : Nat → Bool)
    (kws : List String) (withResume dbExists : Bool) (db : DB) (t0 : Nat) : RunOut :=
  let loadF := !withResume || !dbExists
  let db1 := if loadF then load_keywords db kws else db
  let pending := get_pending_keywords db1
  let rr := runKeywords fetch sd pending db1 t0
  { db := rr.1, t := rr.2.1, processed := rr.2.2, loadedFile := loadF }

/-! ### Basic store lemmas -/

theorem insertPaper_keywords (db : DB) (p : Paper) :
    ((insertPaper db p).1).keywords = db.keywords := by
  unfold insertPaper; split <;> rfl

theorem insertPaper_links (db : DB) (p : Paper) :
    ((insertPaper db p).1).paper_keywords = db.paper_keywords := by
  unfold insertPaper; split <;> rfl

theorem linkPaperKeyword_keywords (db : DB) (pid : String) (kid : Nat) :
    ((linkPaperKeyword db pid kid).1).keywords = db.keywords := by
  unfold linkPaperKeyword; split <;> rfl

theorem linkPaperKeyword_papers (db : DB) (pid : String) (kid : Nat) :
    ((linkPaperKeyword db pid kid).1).papers = db.papers := by
  unfold linkPaperKeyword; split <;> rfl

theorem store_papers_keywords (ps : List Paper) : ∀ (db : DB) (kid : Nat),
    ((store_papers db ps kid).1).keywords = db.keywords := by
  induction ps with
  | nil => intro db kid; rfl
  | cons p rest ih =>
    intro db kid
    show ((store_papers (linkPaperKeyword (insertPaper db p).1 p.arxiv_id kid).1 rest kid).1).keywords = db.keywords
    rw [ih, linkPaperKeyword_keywords, insertPaper_keywords]

/-- If the papers table holds exactly the single row `q` for identifier `id`,
one insert-or-ignore preserves that fact (whatever paper is inserted). -/
theorem paperRows_insert (db : DB) (p : Paper) (id : String) (q : Paper)
    (h : paperRows db id = [q]) : paperRows ((insertPaper db p).1) id = [q] := by
  unfold insertPaper
  split
  · exact h
  · rename_i hne
    show paperRows { db with papers := db.papers ++ [p] } id = [q]
    unfold paperRows at h ⊢
    simp only [List.filter_append]
    rw [h]
    have hmem : q ∈ db.papers.filter fun r => r.arxiv_id == id := by
      rw [h]; exact List.mem_singleton.mpr rfl
    have hq : q ∈ db.papers ∧ q.arxiv_id = id := by
      have := List.mem_filter.mp hmem
      exact ⟨this.1, by simpa using this.2⟩
    have hpid : ¬ p.arxiv_id = id := by
      intro hpe
      exact hne ⟨q, hq.1, by rw [hq.2, hpe]⟩
    have hb : (p.arxiv_id == id) = false := by simpa using hpid
    have : List.filter (fun r => r.arxiv_id == id) [p] = [] := by
      simp [List.filter, hb]
    rw [this, List.append_nil]

theorem paperRows_store (ps : List Paper) : ∀ (db : DB) (kid : Nat) (id : String) (q : Paper),
    paperRows db id = [q] → paperRows ((store_papers db ps kid).1) id = [q] := by
  induction ps with
  | nil => intro db kid id q h; exact h
  | cons p rest ih =>
    intro db kid id q h
    show paperRows ((store_papers (linkPaperKeyword (insertPaper db p).1 p.arxiv_id kid).1 rest kid).1) id = [q]
    apply ih
    have h1 : paperRows ((insertPaper db p).1) id = [q] := paperRows_insert db p id q h
    unfold paperRows at h1 ⊢
    rw [linkPaperKeyword_papers]
    exact h1

theorem paperRows_commit (batches : List (List Paper × Nat)) :
    ∀ (db : DB) (id : String) (q : Paper),
    paperRows db id = [q] → paperRows (commitBatches db batches) id = [q] := by
  induction batches with
  | nil => intro db id q h; exact h
  | cons b rest ih =>
    intro db id q h
    exact ih _ id q (paperRows_store b.1 db b.2 id q h)

theorem pairCount_append (x : String × Nat) (l1 l2 : List (String × Nat)) :
    pairCount x (l1 ++ l2) = pairCount x l1 + pairCount x l2 := by
  induction l1 with
  | nil => simp [pairCount]
  | cons y l ih => simp [pairCount, ih]; omega

theorem pairCount_eq_zero_of_not_mem (x : String × Nat) (l : List (String × Nat))
    (h : x ∉ l) : pairCount x l = 0 := by
  induction l with
  | nil => rfl
  | cons y l ih =>
    have hy : y ≠ x := fun he => h (he ▸ List.mem_cons_self y l)
    have hl : x ∉ l := fun hm => h (List.mem_cons_of_mem y hm)
    simp [pairCount, hy, ih hl]

/-- One link operation preserves "the pair occurs at most once". -/
theorem pairCount_link (db : DB) (x : String × Nat) (pid : String) (kid : Nat)
    (h : pairCount x db.paper_keywords ≤ 1) :
    pairCount x ((linkPaperKeyword db pid kid).1).paper_keywords ≤ 1 := by
  unfold linkPaperKeyword
  split
  · exact h
  · rename_i hne
    show pairCount x (db.paper_keywords ++ [(pid, kid)]) ≤ 1
    rw [pairCount_append]
    by_cases he : (pid, kid) = x
    · have h0 : pairCount x db.paper_keywords = 0 :=
        pairCount_eq_zero_of_not_mem x _ (fun hm => hne (he ▸ hm))
      simp [pairCount, h0, he]
    · simp [pairCount, he, h]

theorem pairCount_store (ps : List Paper) : ∀ (db : DB) (kid : Nat) (x : String × Nat),
    pairCount x db.paper_keywords ≤ 1 →
    pairCount x ((store_papers db ps kid).1).paper_keywords ≤ 1 := by
  induction ps with
  | nil => intro db kid x h; exact h
  | cons p rest ih =>
    intro db kid x h
    show pairCount x ((store_papers (linkPaperKeyword (insertPaper db p).1 p.arxiv_id kid).1 rest kid).1).paper_keywords ≤ 1
    apply ih
    apply pairCount_link
    rw [insertPaper_links]
    exact h

theorem pairCount_commit (batches : List (List Paper × Nat)) :
    ∀ (db : DB) (x : String × Nat),
    pairCount x db.paper_keywords ≤ 1 →
    pairCount x (commitBatches db batches).paper_keywords ≤ 1 := by
  induction batches with
  | nil => intro db x h; exact h
  | cons b rest ih =>
    intro db x h
    exact ih _ x (pairCount_store b.1 db b.2 x h)

/-! ### Unfolding lemmas for the pagination loop -/

section PKLemmas

variable (fetch : String → Nat → Nat → FetchResult) (sd : Nat → Bool) (kw : String) (kid : Nat)

@[simp] theorem commitPage_total_processed (s : PKSt) (ps : List Paper) (tot : Nat) :
    (commitPage s kid ps tot).total_processed = s.total_processed + ps.length := rfl

@[simp] theorem commitPage_start (s : PKSt) (ps : List Paper) (tot : Nat) :
    (commitPage s kid ps tot).start = s.start := rfl

@[simp] theorem commitPage_t (s : PKSt) (ps : List Paper) (tot : Nat) :
    (commitPage s kid ps tot).t = s.t + 1 := rfl

@[simp] theorem commitPage_nfetches (s : PKSt) (ps : List Paper) (tot : Nat) :
    (commitPage s kid ps tot).nfetches = s.nfetches + 1 := rfl

theorem commitPage_total_results (s : PKSt) (ps : List Paper) (tot : Nat) :
    (commitPage s kid ps tot).total_results
      = if s.start = 0 then min tot max_results_per_keyword else s.total_results := rfl

theorem commitPage_db (s : PKSt) (ps : List Paper) (tot : Nat) :
    (commitPage s kid ps tot).db
      = updateKeyword (store_papers s.db ps kid).1 kid
          (pageUpd (if s.start = 0 then min tot max_results_per_keyword else s.total_results)
            (s.total_processed + ps.length)) := rfl

theorem pkLoop_zero (s : PKSt) : pkLoop fetch sd kw kid 0 s = (s, .normal) := rfl

theorem pkLoop_done (n : Nat) (s : PKSt) (h : ¬ s.start < max_results_per_keyword) :
    pkLoop fetch sd kw kid (n + 1) s = (s, .normal) := by
  simp only [pkLoop]
  rw [if_neg h]

theorem pkLoop_sd (n : Nat) (s : PKSt) (h1 : s.start < max_results_per_keyword)
    (h2 : sd s.t = true) :
    pkLoop fetch sd kw kid (n + 1) s = (s, .normal) := by
  simp only [pkLoop]
  rw [if_pos h1]
  simp [h2]

theorem pkLoop_err (n : Nat) (s : PKSt) (m : String)
    (h1 : s.start < max_results_per_keyword) (h2 : sd s.t = false)
    (hf : fetch kw s.start (min batch_size (max_results_per_keyword - s.start)) = .err m) :
    pkLoop fetch sd kw kid (n + 1) s
      = ({ s with t := s.t + 1, nfetches := s.nfetches + 1 }, .fetchErr m) := by
  simp only [pkLoop]
  rw [if_pos h1]
  simp [h2, hf]

theorem pkLoop_page_short (n : Nat) (s : PKSt) (ps : List Paper) (tot : Nat)
    (h1 : s.start < max_results_per_keyword) (h2 : sd s.t = false)
    (hf : fetch kw s.start (min batch_size (max_results_per_keyword - s.start)) = .ok ps tot)
    (hs : ps.length < batch_size) :
    pkLoop fetch sd kw kid (n + 1) s = (commitPage s kid ps tot, .normal) := by
  simp only [pkLoop]
  rw [if_pos h1]
  simp [h2, hf, hs]

theorem pkLoop_page_full (n : Nat) (s : PKSt) (ps : List Paper) (tot : Nat)
    (h1 : s.start < max_results_per_keyword) (h2 : sd s.t = false)
    (hf : fetch kw s.start (min batch_size (max_results_per_keyword - s.start)) = .ok ps tot)
    (hs : ¬ ps.length < batch_size) :
    pkLoop fetch sd kw kid (n + 1) s
      = pkLoop fetch sd kw kid n { commitPage s kid ps tot with start := s.start + ps.length } := by
  simp only [pkLoop]
  rw [if_pos h1]
  simp [h2, hf, hs]

/-- The per-query ceiling invariant: if every page returns at most the
requested number of records, the processed count never exceeds
`max_results_per_keyword`. -/
theorem pkLoop_processed_le
    (hb : ∀ st n ps tot, fetch kw st n = .ok ps tot → ps.length ≤ n) :
    ∀ (fuel : Nat) (s : PKSt), s.total_processed ≤ s.start →
    s.start ≤ max_results_per_keyword →
    (pkLoop fetch sd kw kid fuel s).1.total_processed ≤ max_results_per_keyword := by
  intro fuel
  induction fuel with
  | zero => intro s h1 h2; exact le_trans h1 h2
  | succ n ih =>
    intro s h1 h2
    by_cases hlt : s.start < max_results_per_keyword
    · cases hsd : sd s.t with
      | true => rw [pkLoop_sd fetch sd kw kid n s hlt hsd]; exact le_trans h1 h2
      | false =>
        cases hf : fetch kw s.start (min batch_size (max_results_per_keyword - s.start)) with
        | err m =>
          rw [pkLoop_err fetch sd kw kid n s m hlt hsd hf]
          exact le_trans h1 h2
        | ok ps tot =>
          have hlen : ps.length ≤ min batch_size (max_results_per_keyword - s.start) :=
            hb _ _ _ _ hf
          have hlen2 : ps.length ≤ max_results_per_keyword - s.start :=
            le_trans hlen (min_le_right _ _)
          by_cases hs : ps.length < batch_size
          · rw [pkLoop_page_short fetch sd kw kid n s ps tot hlt hsd hf hs]
            simp only [commitPage_total_processed]
            omega
          · rw [pkLoop_page_full fetch sd kw kid n s ps tot hlt hsd hf hs]
            apply ih
            · simp only [commitPage_total_processed]
              omega
            · simp only [commitPage_start]
              omega
    · rw [pkLoop_done fetch sd kw kid n s hlt]
      exact le_trans h1 h2

/-- Once `start` has left 0, the query's recorded total never changes:
the clamp happens only on the first page. -/
theorem pkLoop_total_results :
    ∀ (fuel : Nat) (s : PKSt), s.start ≠ 0 →
    (pkLoop fetch sd kw kid fuel s).1.total_results = s.total_results := by
  intro fuel
  induction fuel with
  | zero => intro s _; rfl
  | succ n ih =>
    intro s h0
    by_cases hlt : s.start < max_results_per_keyword
    · cases hsd : sd s.t with
      | true => rw [pkLoop_sd fetch sd kw kid n s hlt hsd]
      | false =>
        cases hf : fetch kw s.start (min batch_size (max_results_per_keyword - s.start)) with
        | err m => rw [pkLoop_err fetch sd kw kid n s m hlt hsd hf]
        | ok ps tot =>
          by_cases hs : ps.length < batch_size
          · rw [pkLoop_page_short fetch sd kw kid n s ps tot hlt hsd hf hs]
            simp [commitPage_total_results, h0]
          · rw [pkLoop_page_full fetch sd kw kid n s ps tot hlt hsd hf hs]
            rw [ih _ (show s.start + ps.length ≠ 0 by omega)]
            show (commitPage s kid ps tot).total_results = s.total_results
            rw [commitPage_total_results]
            simp [h0]
    · rw [pkLoop_done fetch sd kw kid n s hlt]

theorem process_keyword_state (db : DB) (t0 : Nat) :
    (process_keyword fetch sd kw kid db t0).2.1 = (pkRun fetch sd kw kid db t0).1 := by
  unfold process_keyword
  cases hr : (pkRun fetch sd kw kid db t0).2 <;> simp [hr]

end PKLemmas

@[simp] theorem initSt_start (db : DB) (t0 : Nat) : (initSt db t0).start = 0 := rfl

@[simp] theorem initSt_t (db : DB) (t0 : Nat) : (initSt db t0).t = t0 := rfl

@[simp] theorem initSt_total_processed (db : DB) (t0 : Nat) :
    (initSt db t0).total_processed = 0 := rfl

@[simp] theorem initSt_db (db : DB) (t0 : Nat) : (initSt db t0).db = db := rfl

/-! ### getRow lemmas -/

theorem find_map_update (l : List KeywordRow) (kid : Nat) (f : KeywordRow → KeywordRow)
    (hid : ∀ r, (f r).id = r.id) :
    ((l.map fun r => if r.id = kid then f r else r).find? fun r => r.id == kid)
      = (l.find? fun r => r.id == kid).map f := by
  induction l with
  | nil => rfl
  | cons a l ih =>
    by_cases ha : a.id = kid
    · simp [List.find?, ha, hid]
    · have hb : (a.id == kid) = false := by simpa using ha
      simp [List.find?, ha, hb, ih]

theorem updateKeyword_getRow (db : DB) (kid : Nat) (f : KeywordRow → KeywordRow)
    (hid : ∀ r, (f r).id = r.id) :
    getRow (updateKeyword db kid f) kid = (getRow db kid).map f :=
  find_map_update db.keywords kid f hid

theorem getRow_update_pageUpd (db : DB) (kid tr tp : Nat) :
    getRow (updateKeyword db kid (pageUpd tr tp)) kid = (getRow db kid).map (pageUpd tr tp) :=
  updateKeyword_getRow db kid (pageUpd tr tp) (fun _ => rfl)

theorem getRow_update_procUpd (db : DB) (kid t0 : Nat) :
    getRow (updateKeyword db kid (procUpd t0)) kid = (getRow db kid).map (procUpd t0) :=
  updateKeyword_getRow db kid (procUpd t0) (fun _ => rfl)

theorem getRow_update_doneUpd (db : DB) (kid : Nat) (st : KStatus) (t : Nat) :
    getRow (updateKeyword db kid (doneUpd st t)) kid = (getRow db kid).map (doneUpd st t) :=
  updateKeyword_getRow db kid (doneUpd st t) (fun _ => rfl)

theorem getRow_update_failUpd (db : DB) (kid : Nat) (m : String) (t : Nat) :
    getRow (updateKeyword db kid (failUpd m t)) kid = (getRow db kid).map (failUpd m t) :=
  updateKeyword_getRow db kid (failUpd m t) (fun _ => rfl)

/-- On a normal loop exit, `process_keyword` runs exactly the
completed/interrupted `UPDATE` on the loop's final database. -/
theorem process_keyword_db_normal (fetch : String → Nat → Nat → FetchResult) (sd : Nat → Bool)
    (kw : String) (kid : Nat) (db : DB) (t0 : Nat)
    (hn : (pkRun fetch sd kw kid db t0).2 = .normal) :
    (process_keyword fetch sd kw kid db t0).1
      = updateKeyword (pkRun fetch sd kw kid db t0).1.db kid
          (doneUpd (if sd (pkRun fetch sd kw kid db t0).1.t then .interrupted else .completed)
            (pkRun fetch sd kw kid db t0).1.t) := by
  simp only [process_keyword]
  rw [hn]

/-- On an erroring loop exit, `process_keyword` runs exactly the `failed`
`UPDATE` (recording the error message) on the loop's final database. -/
theorem process_keyword_db_err (fetch : String → Nat → Nat → FetchResult) (sd : Nat → Bool)
    (kw : String) (kid : Nat) (db : DB) (t0 : Nat) (m : String)
    (hn : (pkRun fetch sd kw kid db t0).2 = .fetchErr m) :
    (process_keyword fetch sd kw kid db t0).1
      = updateKeyword (pkRun fetch sd kw kid db t0).1.db kid
          (failUpd m (pkRun fetch sd kw kid db t0).1.t) := by
  simp only [process_keyword]
  rw [hn]

theorem getRow_store (db : DB) (ps : List Paper) (pid kid : Nat) :
    getRow ((store_papers db ps pid).1) kid = getRow db kid := by
  unfold getRow
  rw [store_papers_keywords]

theorem commitPage_getRow_isSome (s : PKSt) (kid : Nat) (ps : List Paper) (tot : Nat)
    (h : (getRow s.db kid).isSome) :
    (getRow (commitPage s kid ps tot).db kid).isSome := by
  rw [commitPage_db,
    updateKeyword_getRow _ kid
      (pageUpd (if s.start = 0 then min tot max_results_per_keyword else s.total_results)
        (s.total_processed + ps.length)) (fun r => rfl),
    getRow_store]
  cases hg : getRow s.db kid with
  | none => rw [hg] at h; simp at h
  | some r => simp

theorem pkLoop_getRow_isSome (fetch : String → Nat → Nat → FetchResult) (sd : Nat → Bool)
    (kw : String) (kid : Nat) :
    ∀ (fuel : Nat) (s : PKSt), (getRow s.db kid).isSome →
    (getRow (pkLoop fetch sd kw kid fuel s).1.db kid).isSome := by
  intro fuel
  induction fuel with
  | zero => intro s h; exact h
  | succ n ih =>
    intro s h
    by_cases hlt : s.start < max_results_per_keyword
    · cases hsd : sd s.t with
      | true => rw [pkLoop_sd fetch sd kw kid n s hlt hsd]; exact h
      | false =>
        cases hf : fetch kw s.start (min batch_size (max_results_per_keyword - s.start)) with
        | err m => rw [pkLoop_err fetch sd kw kid n s m hlt hsd hf]; exact h
        | ok ps tot =>
          by_cases hs : ps.length < batch_size
          · rw [pkLoop_page_short fetch sd kw kid n s ps tot hlt hsd hf hs]
            exact commitPage_getRow_isSome s kid ps tot h
          · rw [pkLoop_page_full fetch sd kw kid n s ps tot hlt hsd hf hs]
            exact ih _ (commitPage_getRow_isSome s kid ps tot h)
    · rw [pkLoop_done fetch sd kw kid n s hlt]; exact h

/-! ### The deduplication key (query_arxiv, lines 168-172) -/

/-- Python's `str.split(sep)` for a one-character separator, on the
character-list representation of the string. -/
def splitOnChar (c : Char) : List Char → List (List Char)
  | [] => [[]]
  | x :: xs =>
    let r := splitOnChar c xs
    if x = c then [] :: r
    else (x :: r.headD []) :: r.tail

/-- Lines 168-172 of `query_arxiv`:
`arxiv_id = entry.id.split('/')[-1]`, and then, when `'v' in arxiv_id`,
`arxiv_id = arxiv_id.split('v')[0]` — everything from the *first* `v`
onward is discarded. -/
def extract_arxiv_id (entryId : List Char) : List Char :=
  let a := (splitOnChar '/' entryId).getLastD []
  if 'v' ∈ a then (splitOnChar 'v' a).headD [] else a

/-- The key as the spec describes it: the identifier with any trailing
version suffix (a final `v` followed by one or more digits) stripped, and
nothing else removed.  Stated to compare the spec's words with the code's
actual key function. -/
def specStripVersion (id : List Char) : List Char :=
  let r := id.reverse
  let ds := r.takeWhile fun ch => ch.isDigit
  let rest := r.drop ds.length
  if ds ≠ [] ∧ rest.headD ' ' = 'v' then (rest.drop 1).reverse else id

theorem splitOnChar_ne_nil (c : Char) (l : List Char) : splitOnChar c l ≠ [] := by
  cases l with
  | nil => simp [splitOnChar]
  | cons x xs =>
    simp only [splitOnChar]
    split <;> simp

theorem splitOnChar_of_not_mem (c : Char) (l : List Char) (h : c ∉ l) :
    splitOnChar c l = [l] := by
  induction l with
  | nil => rfl
  | cons x xs ih =>
    have hx : ¬ x = c := fun he => h (he ▸ List.mem_cons_self x xs)
    have hxs : c ∉ xs := fun hm => h (List.mem_cons_of_mem x hm)
    simp [splitOnChar, hx, ih hxs]

theorem splitOnChar_head_append (c : Char) (b ds : List Char) (h : c ∉ b) :
    (splitOnChar c (b ++ c :: ds)).headD [] = b := by
  induction b with
  | nil => simp [splitOnChar]
  | cons x xs ih =>
    have hx : ¬ x = c := fun he => h (he ▸ List.mem_cons_self x xs)
    have hxs : c ∉ xs := fun hm => h (List.mem_cons_of_mem x hm)
    have hstep : splitOnChar c (x :: (xs ++ c :: ds))
        = (x :: (splitOnChar c (xs ++ c :: ds)).headD []) :: (splitOnChar c (xs ++ c :: ds)).tail := by
      simp [splitOnChar, hx]
    show (splitOnChar c (x :: (xs ++ c :: ds))).headD [] = x :: xs
    rw [hstep, List.headD_cons, ih hxs]

theorem splitOnChar_length (c : Char) (l : List Char) :
    (splitOnChar c l).length = l.count c + 1 := by
  induction l with
  | nil => simp [splitOnChar]
  | cons x xs ih =>
    rcases hr : splitOnChar c xs with _ | ⟨hd, tl⟩
    · exact absurd hr (splitOnChar_ne_nil c xs)
    · by_cases hx : x = c
      · subst hx
        rw [hr] at ih
        simp [splitOnChar, hr, List.count_cons, ih]
      · have hcx : (c == x) = false := by
          simp only [beq_eq_false_iff_ne]
          exact fun he => hx he.symm
        have hxc : (x == c) = false := by
          simp only [beq_eq_false_iff_ne]
          exact hx
        rw [hr] at ih
        simp only [splitOnChar, if_neg hx, hr, List.count_cons, hcx, hxc, if_false,
          Bool.false_eq_true, List.length_cons, List.tail_cons, List.headD_cons] at ih ⊢
        omega

theorem getLastD_cons_of_ne_nil {α : Type} (a d : α) (l : List α) (h : l ≠ []) :
    (a :: l).getLastD d = l.getLastD d := by
  cases l with
  | nil => exact absurd rfl h
  | cons x xs =>
    exact (List.getLastD_cons d a (x :: xs)).trans
      ((List.getLastD_cons a x xs).trans (List.getLastD_cons d x xs).symm)

theorem splitOnChar_getLast_append (c : Char) (s t : List Char) (h : c ∉ t) :
    (splitOnChar c (s ++ c :: t)).getLastD [] = t := by
  induction s with
  | nil =>
    have hstep : splitOnChar c (c :: t) = [] :: splitOnChar c t := by
      simp [splitOnChar]
    show (splitOnChar c (c :: t)).getLastD [] = t
    rw [hstep, splitOnChar_of_not_mem c t h]
    rfl
  | cons x xs ih =>
    rcases hr : splitOnChar c (xs ++ c :: t) with _ | ⟨hd, tl⟩
    · exact absurd hr (splitOnChar_ne_nil _ _)
    · have hlen := splitOnChar_length c (xs ++ c :: t)
      have hcount : 0 < (xs ++ c :: t).count c := by
        rw [List.count_append]
        have : 0 < (c :: t).count c := by
          simp [List.count_cons]
        omega
      have htl : tl ≠ [] := by
        intro he
        rw [hr, he] at hlen
        simp at hlen
      rw [hr] at ih
      by_cases hx : x = c
      · subst hx
        have hstep : splitOnChar x (x :: (xs ++ x :: t))
            = [] :: splitOnChar x (xs ++ x :: t) := by
          simp [splitOnChar]
        show (splitOnChar x (x :: (xs ++ x :: t))).getLastD [] = t
        rw [hstep, hr]
        rw [getLastD_cons_of_ne_nil [] [] (hd :: tl) (List.cons_ne_nil hd tl)]
        exact ih
      · have hstep : splitOnChar c (x :: (xs ++ c :: t))
            = (x :: (splitOnChar c (xs ++ c :: t)).headD [])
              :: (splitOnChar c (xs ++ c :: t)).tail := by
          simp [splitOnChar, hx]
        show (splitOnChar c (x :: (xs ++ c :: t))).getLastD [] = t
        rw [hstep, hr]
        simp only [List.headD_cons, List.tail_cons]
        rw [getLastD_cons_of_ne_nil (x :: hd) [] tl htl]
        rw [← getLastD_cons_of_ne_nil hd [] tl htl]
        exact ih

theorem takeWhile_append_stop (p : Char → Bool) (l1 : List Char) (m : Char) (l2 : List Char)
    (h1 : ∀ x ∈ l1, p x = true) (hm : p m = false) :
    (l1 ++ m :: l2).takeWhile p = l1 := by
  induction l1 with
  | nil => simp [List.takeWhile, hm]
  | cons x xs ih =>
    have hx : p x = true := h1 x (List.mem_cons_self x xs)
    show List.takeWhile p (x :: (xs ++ m :: l2)) = x :: xs
    rw [List.takeWhile_cons, hx]
    simp only [if_true]
    rw [ih (fun y hy => h1 y (List.mem_cons_of_mem _ hy))]

theorem specStripVersion_versioned (b ds : List Char) (hds : ds ≠ [])
    (hdig : ∀ ch ∈ ds, ch.isDigit = true) :
    specStripVersion (b ++ 'v' :: ds) = b := by
  simp only [specStripVersion]
  have hrev : (b ++ 'v' :: ds).reverse = ds.reverse ++ 'v' :: b.reverse := by
    simp [List.reverse_append]
  have htw : (ds.reverse ++ 'v' :: b.reverse).takeWhile (fun ch => ch.isDigit)
      = ds.reverse :=
    takeWhile_append_stop _ ds.reverse 'v' b.reverse
      (fun x hx => hdig x (List.mem_reverse.mp hx)) (by decide)
  rw [hrev, htw, List.drop_left]
  rw [if_pos ⟨by simpa using hds, rfl⟩]
  simp

theorem specStripVersion_no_v (b : List Char) (hb : 'v' ∉ b) :
    specStripVersion b = b := by
  simp only [specStripVersion]
  apply if_neg
  rintro ⟨h1, h2⟩
  rcases hd : b.reverse.drop ((b.reverse.takeWhile fun ch => ch.isDigit).length)
    with _ | ⟨c, rest⟩
  · rw [hd] at h2
    exact absurd h2 (by decide)
  · rw [hd] at h2
    simp only [List.headD_cons] at h2
    have hc : c ∈ b :=
      List.mem_reverse.mp (List.mem_of_mem_drop (hd ▸ List.mem_cons_self c rest))
    exact hb (h2 ▸ hc)

theorem extract_arxiv_id_versioned (pre b ds : List Char)
    (hb : 'v' ∉ b) (hsb : '/' ∉ b) (hsd : '/' ∉ ds) :
    extract_arxiv_id (pre ++ '/' :: (b ++ 'v' :: ds)) = b := by
  simp only [extract_arxiv_id]
  have ht : '/' ∉ b ++ 'v' :: ds := by
    intro hm
    rcases List.mem_append.mp hm with hm | hm
    · exact hsb hm
    · rcases List.mem_cons.mp hm with hm | hm
      · exact absurd hm (by decide)
      · exact hsd hm
  rw [splitOnChar_getLast_append '/' pre _ ht]
  have hv : 'v' ∈ b ++ 'v' :: ds :=
    List.mem_append.mpr (Or.inr (List.mem_cons_self _ _))
  rw [if_pos hv, splitOnChar_head_append 'v' b ds hb]

theorem extract_arxiv_id_no_v (pre b : List Char) (hb : 'v' ∉ b) (hsb : '/' ∉ b) :
    extract_arxiv_id (pre ++ '/' :: b) = b := by
  simp only [extract_arxiv_id]
  rw [splitOnChar_getLast_append '/' pre b hsb]
  rw [if_neg hb]

/-! ### Run-level lemmas -/

/-- `id` and `keyword` of every keyword row; no operation of the collector
ever changes this projection of the table once `run` has loaded it. -/
def kwNames (db : DB) : List (Nat × String) :=
  db.keywords.map fun r => (r.id, r.keyword)

theorem runKeywords_processed (fetch : String → Nat → Nat → FetchResult)
    (ks : List (Nat × String)) : ∀ (db : DB) (t : Nat),
    (runKeywords fetch (fun _ => false) ks db t).2.2 = ks := by
  induction ks with
  | nil => intro db t; rfl
  | cons p rest ih =>
    intro db t
    cases p
    simp [runKeywords, ih]

theorem updateKeyword_mem_of_ne (db : DB) (kid : Nat) (f : KeywordRow → KeywordRow)
    (r : KeywordRow) (hr : r ∈ db.keywords) (hne : r.id ≠ kid) :
    r ∈ (updateKeyword db kid f).keywords :=
  List.mem_map.mpr ⟨r, hr, by rw [if_neg hne]⟩

theorem pkLoop_mem_of_ne (fetch : String → Nat → Nat → FetchResult) (sd : Nat → Bool)
    (kw : String) (kid : Nat) : ∀ (fuel : Nat) (s : PKSt) (r : KeywordRow),
    r ∈ s.db.keywords → r.id ≠ kid →
    r ∈ (pkLoop fetch sd kw kid fuel s).1.db.keywords := by
  intro fuel
  induction fuel with
  | zero => intro s r hr _; exact hr
  | succ n ih =>
    intro s r hr hne
    by_cases hlt : s.start < max_results_per_keyword
    · cases hsd : sd s.t with
      | true => rw [pkLoop_sd fetch sd kw kid n s hlt hsd]; exact hr
      | false =>
        cases hf : fetch kw s.start (min batch_size (max_results_per_keyword - s.start)) with
        | err m => rw [pkLoop_err fetch sd kw kid n s m hlt hsd hf]; exact hr
        | ok ps tot =>
          have hc : r ∈ (commitPage s kid ps tot).db.keywords := by
            rw [commitPage_db]
            apply updateKeyword_mem_of_ne _ _ _ _ _ hne
            rw [store_papers_keywords]
            exact hr
          by_cases hs : ps.length < batch_size
          · rw [pkLoop_page_short fetch sd kw kid n s ps tot hlt hsd hf hs]
            exact hc
          · rw [pkLoop_page_full fetch sd kw kid n s ps tot hlt hsd hf hs]
            exact ih _ r hc hne
    · rw [pkLoop_done fetch sd kw kid n s hlt]; exact hr

theorem process_keyword_mem_of_ne (fetch : String → Nat → Nat → FetchResult) (sd : Nat → Bool)
    (kw : String) (kid : Nat) (db : DB) (t0 : Nat) (r : KeywordRow)
    (hr : r ∈ db.keywords) (hne : r.id ≠ kid) :
    r ∈ (process_keyword fetch sd kw kid db t0).1.keywords := by
  have h1 : r ∈ (markProcessing db kid t0).keywords :=
    updateKeyword_mem_of_ne db kid _ r hr hne
  have h2 : r ∈ (pkRun fetch sd kw kid db t0).1.db.keywords :=
    pkLoop_mem_of_ne fetch sd kw kid pkFuel _ r h1 hne
  cases hx : (pkRun fetch sd kw kid db t0).2 with
  | normal =>
    rw [process_keyword_db_normal fetch sd kw kid db t0 hx]
    exact updateKeyword_mem_of_ne _ kid _ r h2 hne
  | fetchErr m =>
    rw [process_keyword_db_err fetch sd kw kid db t0 m hx]
    exact updateKeyword_mem_of_ne _ kid _ r h2 hne

theorem runKeywords_mem (fetch : String → Nat → Nat → FetchResult) (sd : Nat → Bool) :
    ∀ (ks : List (Nat × String)) (db : DB) (t : Nat) (r : KeywordRow),
    r ∈ db.keywords → (∀ p ∈ ks, r.id ≠ p.1) →
    r ∈ (runKeywords fetch sd ks db t).1.keywords := by
  intro ks
  induction ks with
  | nil => intro db t r hr _; exact hr
  | cons p rest ih =>
    intro db t r hr hp
    cases p with
    | mk kid kw =>
      by_cases hsd : sd t
      · simp only [runKeywords, hsd, if_true]
        exact hr
      · simp only [runKeywords, hsd, if_false, Bool.false_eq_true]
        exact ih _ _ r
          (process_keyword_mem_of_ne fetch sd kw kid db t r hr
            (hp (kid, kw) (List.mem_cons_self _ _)))
          (fun q hq => hp q (List.mem_cons_of_mem _ hq))

theorem pairwise_lt_row_eq (l : List KeywordRow)
    (h : l.Pairwise fun a b => a.id < b.id) (r r' : KeywordRow)
    (hr : r ∈ l) (hr' : r' ∈ l) (hid : r.id = r'.id) : r = r' := by
  induction l with
  | nil => cases hr
  | cons a tl ih =>
    rw [List.pairwise_cons] at h
    rcases List.mem_cons.mp hr with h1 | h1 <;> rcases List.mem_cons.mp hr' with h2 | h2
    · rw [h1, h2]
    · exfalso; have hlt := h.1 r' h2; rw [h1] at hid; omega
    · exfalso; have hlt := h.1 r h1; rw [h2] at hid; omega
    · exact ih h.2 h1 h2

theorem store_papers_kwNames (db : DB) (ps : List Paper) (kid : Nat) :
    kwNames ((store_papers db ps kid).1) = kwNames db := by
  unfold kwNames
  rw [store_papers_keywords]

theorem updateKeyword_kwNames (db : DB) (kid : Nat) (f : KeywordRow → KeywordRow)
    (hf : ∀ r, ((f r).id, (f r).keyword) = (r.id, r.keyword)) :
    kwNames (updateKeyword db kid f) = kwNames db := by
  unfold kwNames updateKeyword
  rw [List.map_map]
  apply List.map_congr_left
  intro r _
  simp only [Function.comp_apply]
  by_cases h : r.id = kid
  · rw [if_pos h]
    exact hf r
  · rw [if_neg h]

theorem kwNames_update_pageUpd (db : DB) (kid tr tp : Nat) :
    kwNames (updateKeyword db kid (pageUpd tr tp)) = kwNames db :=
  updateKeyword_kwNames db kid (pageUpd tr tp) (fun _ => rfl)

theorem kwNames_update_procUpd (db : DB) (kid t0 : Nat) :
    kwNames (updateKeyword db kid (procUpd t0)) = kwNames db :=
  updateKeyword_kwNames db kid (procUpd t0) (fun _ => rfl)

theorem kwNames_update_doneUpd (db : DB) (kid : Nat) (st : KStatus) (t : Nat) :
    kwNames (updateKeyword db kid (doneUpd st t)) = kwNames db :=
  updateKeyword_kwNames db kid (doneUpd st t) (fun _ => rfl)

theorem kwNames_update_failUpd (db : DB) (kid : Nat) (m : String) (t : Nat) :
    kwNames (updateKeyword db kid (failUpd m t)) = kwNames db :=
  updateKeyword_kwNames db kid (failUpd m t) (fun _ => rfl)

theorem pkLoop_kwNames (fetch : String → Nat → Nat → FetchResult) (sd : Nat → Bool)
    (kw : String) (kid : Nat) : ∀ (fuel : Nat) (s : PKSt),
    kwNames (pkLoop fetch sd kw kid fuel s).1.db = kwNames s.db := by
  intro fuel
  induction fuel with
  | zero => intro s; rfl
  | succ n ih =>
    intro s
    by_cases hlt : s.start < max_results_per_keyword
    · cases hsd : sd s.t with
      | true => rw [pkLoop_sd fetch sd kw kid n s hlt hsd]
      | false =>
        cases hf : fetch kw s.start (min batch_size (max_results_per_keyword - s.start)) with
        | err m => rw [pkLoop_err fetch sd kw kid n s m hlt hsd hf]
        | ok ps tot =>
          have hc : kwNames (commitPage s kid ps tot).db = kwNames s.db := by
            rw [commitPage_db, kwNames_update_pageUpd, store_papers_kwNames]
          by_cases hs : ps.length < batch_size
          · rw [pkLoop_page_short fetch sd kw kid n s ps tot hlt hsd hf hs]
            exact hc
          · rw [pkLoop_page_full fetch sd kw kid n s ps tot hlt hsd hf hs]
            rw [ih]
            exact hc
    · rw [pkLoop_done fetch sd kw kid n s hlt]

theorem process_keyword_kwNames (fetch : String → Nat → Nat → FetchResult) (sd : Nat → Bool)
    (kw : String) (kid : Nat) (db : DB) (t0 : Nat) :
    kwNames (process_keyword fetch sd kw kid db t0).1 = kwNames db := by
  have h1 : kwNames (pkRun fetch sd kw kid db t0).1.db = kwNames db := by
    unfold pkRun
    rw [pkLoop_kwNames]
    show kwNames (markProcessing db kid t0) = kwNames db
    exact kwNames_update_procUpd db kid t0
  cases hx : (pkRun fetch sd kw kid db t0).2 with
  | normal =>
    rw [process_keyword_db_normal fetch sd kw kid db t0 hx, kwNames_update_doneUpd, h1]
  | fetchErr m =>
    rw [process_keyword_db_err fetch sd kw kid db t0 m hx, kwNames_update_failUpd, h1]

theorem runKeywords_kwNames (fetch : String → Nat → Nat → FetchResult) (sd : Nat → Bool) :
    ∀ (ks : List (Nat × String)) (db : DB) (t : Nat),
    kwNames (runKeywords fetch sd ks db t).1 = kwNames db := by
  intro ks
  induction ks with
  | nil => intro db t; rfl
  | cons p rest ih =>
    intro db t
    cases p with
    | mk kid kw =>
      by_cases hsd : sd t
      · simp only [runKeywords, hsd, if_true]
      · simp only [runKeywords, hsd, if_false, Bool.false_eq_true]
        rw [ih, process_keyword_kwNames]

theorem get_pending_mem (db : DB) (kid : Nat) (kw : String) :
    (kid, kw) ∈ get_pending_keywords db
      ↔ ∃ r, r ∈ db.keywords ∧ r.id = kid ∧ r.keyword = kw
          ∧ (r.status = .pending ∨ r.status = .failed) := by
  unfold get_pending_keywords
  simp only [List.mem_map, List.mem_filter, Bool.or_eq_true, beq_iff_eq, Prod.mk.injEq]
  constructor
  · rintro ⟨r, ⟨hr, hst⟩, hid, hkw⟩
    exact ⟨r, hr, hid, hkw, hst⟩
  · rintro ⟨r, hr, hid, hkw, hst⟩
    exact ⟨r, ⟨hr, hst⟩, hid, hkw⟩

/-! ### Claims C1, C2, C8 -/

/-- Claim C1: inserting a record whose identifier is already stored is a
no-op, and across any sequence of page commits, an identifier stored with
row `q` keeps exactly that one row `q` with all its original field values. -/
theorem c1_upsert_idempotent (db : DB) (p : Paper) (id : String) (q : Paper)
    (batches : List (List Paper × Nat)) :
    ((∃ r ∈ db.papers, r.arxiv_id = p.arxiv_id) → insertPaper db p = (db, false))
    ∧ (paperRows db id = [q] → paperRows (commitBatches db batches) id = [q]) := by
  constructor
  · intro h
    unfold insertPaper
    rw [if_pos h]
  · exact paperRows_commit batches db id q

theorem c1_upsert_idempotent_witness :
    (∃ r ∈ (DB.mk [⟨"2301.00001", "t", "a", "s", "c", "", "", "", ""⟩] [] []).papers,
        r.arxiv_id = (Paper.mk "2301.00001" "t2" "a2" "s2" "c2" "" "" "" "").arxiv_id)
    ∧ insertPaper (DB.mk [⟨"2301.00001", "t", "a", "s", "c", "", "", "", ""⟩] [] [])
        (Paper.mk "2301.00001" "t2" "a2" "s2" "c2" "" "" "" "")
      = (DB.mk [⟨"2301.00001", "t", "a", "s", "c", "", "", "", ""⟩] [] [], false)
    ∧ paperRows (commitBatches (DB.mk [⟨"2301.00001", "t", "a", "s", "c", "", "", "", ""⟩] [] [])
        [([Paper.mk "2301.00001" "t2" "a2" "s2" "c2" "" "" "" ""], 1)]) "2301.00001"
      = [⟨"2301.00001", "t", "a", "s", "c", "", "", "", ""⟩] := by
  refine ⟨by decide, ?_, ?_⟩
  · exact (c1_upsert_idempotent _ _ "2301.00001" ⟨"2301.00001", "t", "a", "s", "c", "", "", "", ""⟩ []).1 (by decide)
  · exact (c1_upsert_idempotent _ (Paper.mk "2301.00001" "t2" "a2" "s2" "c2" "" "" "" "") "2301.00001"
      ⟨"2301.00001", "t", "a", "s", "c", "", "", "", ""⟩
      [([Paper.mk "2301.00001" "t2" "a2" "s2" "c2" "" "" "" ""], 1)]).2 (by decide)

/-- Claim C2: a (record, query) pair appears at most once in the link table
across any sequence of page commits, and re-linking an already-linked pair
is a no-op. -/
theorem c2_link_at_most_once (db : DB) (pid : String) (kid : Nat)
    (batches : List (List Paper × Nat)) :
    ((pid, kid) ∈ db.paper_keywords → linkPaperKeyword db pid kid = (db, false))
    ∧ (pairCount (pid, kid) db.paper_keywords ≤ 1 →
        pairCount (pid, kid) (commitBatches db batches).paper_keywords ≤ 1) := by
  constructor
  · intro h
    unfold linkPaperKeyword
    rw [if_pos h]
  · exact pairCount_commit batches db (pid, kid)

theorem c2_link_at_most_once_witness :
    ("2301.00001", 1) ∈ (DB.mk [] [] [("2301.00001", 1)]).paper_keywords
    ∧ linkPaperKeyword (DB.mk [] [] [("2301.00001", 1)]) "2301.00001" 1
      = (DB.mk [] [] [("2301.00001", 1)], false)
    ∧ pairCount ("2301.00001", 1)
        (commitBatches (DB.mk [] [] [("2301.00001", 1)])
          [([Paper.mk "2301.00001" "t" "a" "s" "c" "" "" "" ""], 1)]).paper_keywords ≤ 1 := by
  refine ⟨by decide, ?_, ?_⟩
  · exact (c2_link_at_most_once (DB.mk [] [] [("2301.00001", 1)]) "2301.00001" 1 []).1 (by decide)
  · exact (c2_link_at_most_once (DB.mk [] [] [("2301.00001", 1)]) "2301.00001" 1
      [([Paper.mk "2301.00001" "t" "a" "s" "c" "" "" "" ""], 1)]).2 (by decide)

theorem linkPaperKeyword_length (db : DB) (pid : String) (kid : Nat) :
    ((linkPaperKeyword db pid kid).1).paper_keywords.length
      = db.paper_keywords.length + (if (linkPaperKeyword db pid kid).2 then 1 else 0) := by
  unfold linkPaperKeyword
  split
  · simp
  · simp

/-- Claim C8 (counterexample part): the claim says the per-page "new records"
count counts records whose identifier was previously absent from the papers
table; here the paper is already present (stored earlier under keyword 1,
unlinked to keyword 2), so by the claim the count should be 0, yet
`store_papers` reports 1. -/
theorem c8_counterexample :
    (store_papers (DB.mk [⟨"2301.00001", "t", "a", "s", "c", "", "", "", ""⟩] [] [("2301.00001", 1)])
        [⟨"2301.00001", "t", "a", "s", "c", "", "", "", ""⟩] 2).2 = 1
    ∧ (⟨"2301.00001", "t", "a", "s", "c", "", "", "", ""⟩ : Paper)
        ∈ (DB.mk [⟨"2301.00001", "t", "a", "s", "c", "", "", "", ""⟩] [] [("2301.00001", 1)]).papers := by
  constructor
  · decide
  · decide

/-- Claim C8 (amended): the per-page count returned by `store_papers` counts
exactly the records whose (record, query) pair was newly added to the link
table (the growth of the link table during the page), and re-linking an
already-linked pair contributes nothing to it. -/
theorem c8_new_count_is_new_links (db : DB) (ps : List Paper) (kid : Nat) :
    ((store_papers db ps kid).2 + db.paper_keywords.length
        = ((store_papers db ps kid).1).paper_keywords.length)
    ∧ (∀ pid k, (pid, k) ∈ db.paper_keywords → linkPaperKeyword db pid k = (db, false)) := by
  constructor
  · induction ps generalizing db with
    | nil => simp [store_papers]
    | cons p rest ih =>
      show ((if (linkPaperKeyword (insertPaper db p).1 p.arxiv_id kid).2 then 1 else 0)
            + (store_papers (linkPaperKeyword (insertPaper db p).1 p.arxiv_id kid).1 rest kid).2)
            + db.paper_keywords.length
          = ((store_papers (linkPaperKeyword (insertPaper db p).1 p.arxiv_id kid).1 rest kid).1).paper_keywords.length
      have h1 := ih (linkPaperKeyword (insertPaper db p).1 p.arxiv_id kid).1
      have h2 := linkPaperKeyword_length (insertPaper db p).1 p.arxiv_id kid
      rw [insertPaper_links] at h2
      omega
  · intro pid k h
    unfold linkPaperKeyword
    rw [if_pos h]

/-- Claim C4: if every page returns at most the requested number of records,
the total number of records processed for a query never exceeds the
configured per-query maximum (2000), and the first page's reported total is
clamped to this ceiling when recorded as the query's known total. -/
theorem c4_ceiling_and_clamp (fetch : String → Nat → Nat → FetchResult) (sd : Nat → Bool)
    (kw : String) (kid : Nat) (db : DB) (t0 : Nat)
    (hb : ∀ st n ps tot, fetch kw st n = .ok ps tot → ps.length ≤ n) :
    (process_keyword fetch sd kw kid db t0).2.1.total_processed ≤ max_results_per_keyword
    ∧ (∀ ps tot, sd t0 = false → fetch kw 0 batch_size = .ok ps tot →
        (process_keyword fetch sd kw kid db t0).2.1.total_results
          = min tot max_results_per_keyword) := by
  constructor
  · rw [process_keyword_state]
    exact pkLoop_processed_le fetch sd kw kid hb pkFuel _ (Nat.le_refl 0) (Nat.zero_le _)
  · intro ps tot hsd hf
    rw [process_keyword_state]
    unfold pkRun
    rw [show pkFuel = 4 + 1 from rfl]
    have hlt : (initSt (markProcessing db kid t0) t0).start < max_results_per_keyword := by
      show (0 : Nat) < max_results_per_keyword
      decide
    have hsd0 : sd (initSt (markProcessing db kid t0) t0).t = false := hsd
    have hmin : min batch_size
        (max_results_per_keyword - (initSt (markProcessing db kid t0) t0).start)
        = batch_size := by
      show min batch_size (max_results_per_keyword - 0) = batch_size
      decide
    have hf' : fetch kw (initSt (markProcessing db kid t0) t0).start
        (min batch_size (max_results_per_keyword - (initSt (markProcessing db kid t0) t0).start))
        = .ok ps tot := by rw [hmin]; exact hf
    by_cases hs : ps.length < batch_size
    · rw [pkLoop_page_short fetch sd kw kid 4 _ ps tot hlt hsd0 hf' hs]
      show (commitPage (initSt (markProcessing db kid t0) t0) kid ps tot).total_results
        = min tot max_results_per_keyword
      rw [commitPage_total_results]
      simp
    · rw [pkLoop_page_full fetch sd kw kid 4 _ ps tot hlt hsd0 hf' hs]
      have hlen : batch_size ≤ ps.length := Nat.le_of_not_lt hs
      have hb5 : (500 : Nat) ≤ ps.length := by simpa [batch_size] using hlen
      rw [pkLoop_total_results fetch sd kw kid 4 _
        (show (initSt (markProcessing db kid t0) t0).start + ps.length ≠ 0 by
          show 0 + ps.length ≠ 0
          omega)]
      show (commitPage (initSt (markProcessing db kid t0) t0) kid ps tot).total_results
        = min tot max_results_per_keyword
      rw [commitPage_total_results]
      simp

theorem c4_ceiling_and_clamp_witness :
    (∀ st n ps tot,
        (fun (_ : String) (_ : Nat) (_ : Nat) => FetchResult.ok [] 5000) "k" st n = .ok ps tot →
        ps.length ≤ n)
    ∧ (process_keyword (fun _ _ _ => FetchResult.ok [] 5000) (fun _ => false) "k" 1
        (DB.mk [] [] []) 0).2.1.total_processed ≤ max_results_per_keyword
    ∧ (process_keyword (fun _ _ _ => FetchResult.ok [] 5000) (fun _ => false) "k" 1
        (DB.mk [] [] []) 0).2.1.total_results = min 5000 max_results_per_keyword := by
  have hb : ∀ st n ps tot,
      (fun (_ : String) (_ : Nat) (_ : Nat) => FetchResult.ok [] 5000) "k" st n = .ok ps tot →
      ps.length ≤ n := by
    intro st n ps tot h
    cases h
    simp
  exact ⟨hb,
    (c4_ceiling_and_clamp (fun _ _ _ => FetchResult.ok [] 5000) (fun _ => false) "k" 1
      (DB.mk [] [] []) 0 hb).1,
    (c4_ceiling_and_clamp (fun _ _ _ => FetchResult.ok [] 5000) (fun _ => false) "k" 1
      (DB.mk [] [] []) 0 hb).2 [] 5000 rfl rfl⟩

/-- Claim C5: at any reachable loop offset (a multiple of the page size,
below the ceiling), a successful page shorter than the requested page size
makes the loop commit that page and terminate — whatever total the upstream
reported; otherwise the offset advances by the number of records actually
returned; and a query whose first page is short ends with status
`completed`. -/
theorem c5_short_page_ends_query (fetch : String → Nat → Nat → FetchResult) (sd : Nat → Bool)
    (kw : String) (kid : Nat) (fuel : Nat) (s : PKSt) (ps : List Paper) (tot : Nat)
    (hdvd : batch_size ∣ s.start) (hlt : s.start < max_results_per_keyword)
    (hsd : sd s.t = false)
    (hf : fetch kw s.start batch_size = .ok ps tot) :
    (ps.length < batch_size →
        pkLoop fetch sd kw kid (fuel + 1) s = (commitPage s kid ps tot, .normal))
    ∧ (¬ ps.length < batch_size →
        pkLoop fetch sd kw kid (fuel + 1) s
          = pkLoop fetch sd kw kid fuel
              { commitPage s kid ps tot with start := s.start + ps.length })
    ∧ (∀ (db : DB) (t0 : Nat) (ps2 : List Paper) (tot2 : Nat),
        fetch kw 0 batch_size = .ok ps2 tot2 → ps2.length < batch_size →
        (getRow db kid).isSome →
        ∃ r1, getRow (process_keyword fetch (fun _ => false) kw kid db t0).1 kid = some r1
          ∧ r1.status = KStatus.completed) := by
  have hmin : min batch_size (max_results_per_keyword - s.start) = batch_size := by
    simp only [batch_size, max_results_per_keyword] at hdvd hlt ⊢
    omega
  have hf' : fetch kw s.start (min batch_size (max_results_per_keyword - s.start))
      = .ok ps tot := by rw [hmin]; exact hf
  refine ⟨?_, ?_, ?_⟩
  · intro hs
    exact pkLoop_page_short fetch sd kw kid fuel s ps tot hlt hsd hf' hs
  · intro hs
    exact pkLoop_page_full fetch sd kw kid fuel s ps tot hlt hsd hf' hs
  · intro db t0 ps2 tot2 hf2 hs2 hsome
    have h0lt : (initSt (markProcessing db kid t0) t0).start < max_results_per_keyword := by
      show (0 : Nat) < max_results_per_keyword
      decide
    have h0min : min batch_size
        (max_results_per_keyword - (initSt (markProcessing db kid t0) t0).start)
        = batch_size := by
      show min batch_size (max_results_per_keyword - 0) = batch_size
      decide
    have hf2' : fetch kw (initSt (markProcessing db kid t0) t0).start
        (min batch_size (max_results_per_keyword - (initSt (markProcessing db kid t0) t0).start))
        = .ok ps2 tot2 := by rw [h0min]; exact hf2
    have hrun : pkRun fetch (fun _ => false) kw kid db t0
        = (commitPage (initSt (markProcessing db kid t0) t0) kid ps2 tot2, .normal) := by
      unfold pkRun
      rw [show pkFuel = 4 + 1 from rfl]
      exact pkLoop_page_short fetch (fun _ => false) kw kid 4 _ ps2 tot2 h0lt rfl hf2' hs2
    have hsome2 : (getRow (commitPage (initSt (markProcessing db kid t0) t0) kid ps2 tot2).db
        kid).isSome := by
      apply commitPage_getRow_isSome
      show (getRow (markProcessing db kid t0) kid).isSome
      unfold markProcessing
      rw [getRow_update_procUpd]
      cases hg : getRow db kid with
      | none => rw [hg] at hsome; simp at hsome
      | some r => simp
    have hdb := process_keyword_db_normal fetch (fun _ => false) kw kid db t0
      (by rw [hrun])
    rw [hdb, hrun]
    cases hg : getRow (commitPage (initSt (markProcessing db kid t0) t0) kid ps2 tot2).db kid with
    | none => rw [hg] at hsome2; simp at hsome2
    | some r2 =>
      refine ⟨doneUpd KStatus.completed
        (commitPage (initSt (markProcessing db kid t0) t0) kid ps2 tot2).t r2, ?_, rfl⟩
      rw [show ((commitPage (initSt (markProcessing db kid t0) t0) kid ps2 tot2, PKExit.normal)
          : PKSt × PKExit).1 = commitPage (initSt (markProcessing db kid t0) t0) kid ps2 tot2
          from rfl]
      rw [getRow_update_doneUpd, hg]
      rfl

theorem c5_short_page_ends_query_witness :
    (([] : List Paper).length < batch_size)
    ∧ pkLoop (fun _ _ _ => FetchResult.ok [] 7) (fun _ => false) "k" 1 1
        (initSt (DB.mk [] [] []) 0)
      = (commitPage (initSt (DB.mk [] [] []) 0) 1 [] 7, .normal)
    ∧ (∃ r1, getRow (process_keyword (fun _ _ _ => FetchResult.ok [] 7) (fun _ => false) "k" 1
        (DB.mk [] [{ id := 1, keyword := "k" }] []) 0).1 1 = some r1
        ∧ r1.status = KStatus.completed) := by
  refine ⟨by decide, ?_, ?_⟩
  · exact (c5_short_page_ends_query (fun _ _ _ => FetchResult.ok [] 7) (fun _ => false) "k" 1 0
      (initSt (DB.mk [] [] []) 0) [] 7 (by decide) (by decide) rfl rfl).1 (by decide)
  · exact (c5_short_page_ends_query (fun _ _ _ => FetchResult.ok [] 7) (fun _ => false) "k" 1 0
      (initSt (DB.mk [] [] []) 0) [] 7 (by decide) (by decide) rfl rfl).2.2
      (DB.mk [] [{ id := 1, keyword := "k" }] []) 0 [] 7 rfl (by decide) (by decide)

/-- Claim C6: once the cancellation flag is set, no further page request is
issued (the loop returns at once from its checkpoint, issuing no fetch); a
query whose loop ended with the flag set is marked `interrupted` with its
completion timestamp set and every other field of its row — including the
committed progress counters — unchanged; and the orchestrator loop, seeing
the flag, exits leaving the database untouched and starting no query. -/
theorem c6_cancellation (fetch : String → Nat → Nat → FetchResult) (sd : Nat → Bool)
    (kw : String) (kid : Nat) :
    (∀ (fuel : Nat) (s : PKSt), sd s.t = true →
        pkLoop fetch sd kw kid fuel s = (s, .normal))
    ∧ (∀ (db : DB) (t0 : Nat) (r0 : KeywordRow),
        (pkRun fetch sd kw kid db t0).2 = .normal →
        sd (pkRun fetch sd kw kid db t0).1.t = true →
        getRow (pkRun fetch sd kw kid db t0).1.db kid = some r0 →
        getRow (process_keyword fetch sd kw kid db t0).1 kid
          = some { r0 with status := .interrupted,
                           completed_at := some (pkRun fetch sd kw kid db t0).1.t })
    ∧ (∀ (ks : List (Nat × String)) (db : DB) (t : Nat), sd t = true →
        runKeywords fetch sd ks db t = (db, t, [])) := by
  refine ⟨?_, ?_, ?_⟩
  · intro fuel s h
    cases fuel with
    | zero => rfl
    | succ n =>
      by_cases hlt : s.start < max_results_per_keyword
      · exact pkLoop_sd fetch sd kw kid n s hlt h
      · exact pkLoop_done fetch sd kw kid n s hlt
  · intro db t0 r0 hn hsdt hg
    rw [process_keyword_db_normal fetch sd kw kid db t0 hn]
    rw [getRow_update_doneUpd, hg]
    simp [hsdt, doneUpd]
  · intro ks db t h
    cases ks with
    | nil => rfl
    | cons p rest => simp [runKeywords, h]

theorem c6_cancellation_witness :
    ((fun (_ : Nat) => true) (initSt (DB.mk [] [{ id := 1, keyword := "k" }] []) 0).t = true
      ∧ pkLoop (fun _ _ _ => FetchResult.err "e") (fun _ => true) "k" 1 pkFuel
          (initSt (DB.mk [] [{ id := 1, keyword := "k" }] []) 0)
        = (initSt (DB.mk [] [{ id := 1, keyword := "k" }] []) 0, .normal))
    ∧ ((pkRun (fun _ _ _ => FetchResult.err "e") (fun _ => true) "k" 1
          (DB.mk [] [{ id := 1, keyword := "k" }] []) 0).2 = .normal
      ∧ getRow (process_keyword (fun _ _ _ => FetchResult.err "e") (fun _ => true) "k" 1
          (DB.mk [] [{ id := 1, keyword := "k" }] []) 0).1 1
        = some (KeywordRow.mk 1 "k" 0 0 .interrupted (some 0) (some 0) none))
    ∧ runKeywords (fun _ _ _ => FetchResult.err "e") (fun _ => true) [(1, "k")]
        (DB.mk [] [{ id := 1, keyword := "k" }] []) 5
      = (DB.mk [] [{ id := 1, keyword := "k" }] [], 5, []) := by
  refine ⟨⟨rfl, ?_⟩, ⟨by decide, ?_⟩, ?_⟩
  · exact (c6_cancellation (fun _ _ _ => FetchResult.err "e") (fun _ => true) "k" 1).1
      pkFuel (initSt (DB.mk [] [{ id := 1, keyword := "k" }] []) 0) rfl
  · exact (c6_cancellation (fun _ _ _ => FetchResult.err "e") (fun _ => true) "k" 1).2.1
      (DB.mk [] [{ id := 1, keyword := "k" }] []) 0
      (KeywordRow.mk 1 "k" 0 0 .processing (some 0) none none)
      (by decide) rfl (by decide)
  · exact (c6_cancellation (fun _ _ _ => FetchResult.err "e") (fun _ => true) "k" 1).2.2
      [(1, "k")] (DB.mk [] [{ id := 1, keyword := "k" }] []) 5 rfl

/-- Claim C7: a query whose fetch raises an error ends in status `failed`
with the (non-empty) error message and a completion timestamp recorded on
its row, and the orchestrator loop — whatever the fetch outcomes, failures
included — continues through the whole pending list, so no exception
escapes its per-query loop. -/
theorem c7_failed_query_does_not_abort (fetch : String → Nat → Nat → FetchResult)
    (sd : Nat → Bool) (kw : String) (kid : Nat) :
    (∀ (db : DB) (t0 : Nat) (m : String) (r0 : KeywordRow),
        (pkRun fetch sd kw kid db t0).2 = .fetchErr m →
        m ≠ "" →
        getRow (pkRun fetch sd kw kid db t0).1.db kid = some r0 →
        ∃ r1, getRow (process_keyword fetch sd kw kid db t0).1 kid = some r1
          ∧ r1.status = .failed ∧ r1.error_message = some m ∧ m ≠ ""
          ∧ r1.completed_at = some (pkRun fetch sd kw kid db t0).1.t)
    ∧ (∀ (ks : List (Nat × String)) (db : DB) (t : Nat),
        (runKeywords fetch (fun _ => false) ks db t).2.2 = ks) := by
  constructor
  · intro db t0 m r0 hn hm hg
    rw [process_keyword_db_err fetch sd kw kid db t0 m hn]
    rw [getRow_update_failUpd, hg]
    exact ⟨failUpd m (pkRun fetch sd kw kid db t0).1.t r0, rfl, rfl, rfl, hm, rfl⟩
  · intro ks db t
    exact runKeywords_processed fetch ks db t

theorem c7_failed_query_does_not_abort_witness :
    ((pkRun (fun _ _ _ => FetchResult.err "timed out") (fun _ => false) "k" 1
        (DB.mk [] [{ id := 1, keyword := "k" }] []) 0).2 = .fetchErr "timed out"
      ∧ "timed out" ≠ ""
      ∧ (∃ r1, getRow (process_keyword (fun _ _ _ => FetchResult.err "timed out")
            (fun _ => false) "k" 1 (DB.mk [] [{ id := 1, keyword := "k" }] []) 0).1 1 = some r1
          ∧ r1.status = .failed ∧ r1.error_message = some "timed out" ∧ "timed out" ≠ ""
          ∧ r1.completed_at = some (pkRun (fun _ _ _ => FetchResult.err "timed out")
              (fun _ => false) "k" 1 (DB.mk [] [{ id := 1, keyword := "k" }] []) 0).1.t))
    ∧ (runKeywords (fun _ _ _ => FetchResult.err "timed out") (fun _ => false)
        [(1, "k"), (2, "q")] (DB.mk [] [{ id := 1, keyword := "k" }] []) 0).2.2
      = [(1, "k"), (2, "q")] := by
  refine ⟨⟨by decide, by decide, ?_⟩, ?_⟩
  · exact (c7_failed_query_does_not_abort (fun _ _ _ => FetchResult.err "timed out")
      (fun _ => false) "k" 1).1 (DB.mk [] [{ id := 1, keyword := "k" }] []) 0 "timed out"
      (KeywordRow.mk 1 "k" 0 0 .processing (some 0) none none)
      (by decide) (by decide) (by decide)
  · exact (c7_failed_query_does_not_abort (fun _ _ _ => FetchResult.err "timed out")
      (fun _ => false) "k" 1).2 [(1, "k"), (2, "q")]
      (DB.mk [] [{ id := 1, keyword := "k" }] []) 0

/-- Claim C3: the eligible-for-resume set is exactly the queries with status
`pending` or `failed`, in creation (id) order; a run over an existing store
with no cancellation processes exactly that list; and every query in
another status (`completed`, `interrupted`, `processing`) is neither
processed nor modified — its row survives unchanged. -/
theorem c3_resume_processes_pending_failed (db : DB)
    (fetch : String → Nat → Nat → FetchResult) (t0 : Nat)
    (hsort : db.keywords.Pairwise fun a b => a.id < b.id) :
    (∀ kid kw, (kid, kw) ∈ get_pending_keywords db
        ↔ ∃ r, r ∈ db.keywords ∧ r.id = kid ∧ r.keyword = kw
            ∧ (r.status = .pending ∨ r.status = .failed))
    ∧ (get_pending_keywords db).Pairwise (fun a b => a.1 < b.1)
    ∧ (∀ kws, (run fetch (fun _ => false) kws true true db t0).processed
        = get_pending_keywords db)
    ∧ (∀ r, r ∈ db.keywords → r.status ≠ .pending → r.status ≠ .failed →
        ∀ kws, r ∈ (run fetch (fun _ => false) kws true true db t0).db.keywords) := by
  refine ⟨get_pending_mem db, ?_, ?_, ?_⟩
  · unfold get_pending_keywords
    exact (hsort.filter _).map _ (fun a b hab => hab)
  · intro kws
    show (runKeywords fetch (fun _ => false) (get_pending_keywords db) db t0).2.2
      = get_pending_keywords db
    exact runKeywords_processed fetch (get_pending_keywords db) db t0
  · intro r hr hnp hnf kws
    show r ∈ (runKeywords fetch (fun _ => false) (get_pending_keywords db) db t0).1.keywords
    apply runKeywords_mem fetch (fun _ => false) (get_pending_keywords db) db t0 r hr
    intro p hp hcontra
    obtain ⟨r', hr', hid', _, hst'⟩ := (get_pending_mem db p.1 p.2).mp (by
      rcases p with ⟨a, b⟩; exact hp)
    have : r = r' := pairwise_lt_row_eq db.keywords hsort r r' hr hr' (by rw [hcontra, hid'])
    rcases hst' with h | h
    · exact hnp (this ▸ h)
    · exact hnf (this ▸ h)

theorem c3_resume_processes_pending_failed_witness :
    ((DB.mk [] [KeywordRow.mk 1 "a" 0 0 .pending none none none,
        KeywordRow.mk 2 "b" 0 0 .completed none none none,
        KeywordRow.mk 3 "c" 0 0 .failed none none none] []).keywords.Pairwise
      (fun a b => a.id < b.id))
    ∧ ((1, "a") ∈ get_pending_keywords (DB.mk [] [KeywordRow.mk 1 "a" 0 0 .pending none none none,
        KeywordRow.mk 2 "b" 0 0 .completed none none none,
        KeywordRow.mk 3 "c" 0 0 .failed none none none] []))
    ∧ ((run (fun _ _ _ => FetchResult.err "e") (fun _ => false) ["x"] true true
        (DB.mk [] [KeywordRow.mk 1 "a" 0 0 .pending none none none,
          KeywordRow.mk 2 "b" 0 0 .completed none none none,
          KeywordRow.mk 3 "c" 0 0 .failed none none none] []) 0).processed
      = get_pending_keywords (DB.mk [] [KeywordRow.mk 1 "a" 0 0 .pending none none none,
          KeywordRow.mk 2 "b" 0 0 .completed none none none,
          KeywordRow.mk 3 "c" 0 0 .failed none none none] []))
    ∧ (KeywordRow.mk 2 "b" 0 0 .completed none none none
        ∈ (run (fun _ _ _ => FetchResult.err "e") (fun _ => false) ["x"] true true
          (DB.mk [] [KeywordRow.mk 1 "a" 0 0 .pending none none none,
            KeywordRow.mk 2 "b" 0 0 .completed none none none,
            KeywordRow.mk 3 "c" 0 0 .failed none none none] []) 0).db.keywords) := by
  refine ⟨by decide, ?_, ?_, ?_⟩
  · exact ((c3_resume_processes_pending_failed
      (DB.mk [] [KeywordRow.mk 1 "a" 0 0 .pending none none none,
        KeywordRow.mk 2 "b" 0 0 .completed none none none,
        KeywordRow.mk 3 "c" 0 0 .failed none none none] [])
      (fun _ _ _ => FetchResult.err "e") 0 (by decide)).1 1 "a").mpr
      ⟨KeywordRow.mk 1 "a" 0 0 .pending none none none, by decide, rfl, rfl, Or.inl rfl⟩
  · exact (c3_resume_processes_pending_failed
      (DB.mk [] [KeywordRow.mk 1 "a" 0 0 .pending none none none,
        KeywordRow.mk 2 "b" 0 0 .completed none none none,
        KeywordRow.mk 3 "c" 0 0 .failed none none none] [])
      (fun _ _ _ => FetchResult.err "e") 0 (by decide)).2.2.1 ["x"]
  · exact (c3_resume_processes_pending_failed
      (DB.mk [] [KeywordRow.mk 1 "a" 0 0 .pending none none none,
        KeywordRow.mk 2 "b" 0 0 .completed none none none,
        KeywordRow.mk 3 "c" 0 0 .failed none none none] [])
      (fun _ _ _ => FetchResult.err "e") 0 (by decide)).2.2.2
      (KeywordRow.mk 2 "b" 0 0 .completed none none none) (by decide) (by decide) (by decide)
      ["x"]

/-- Claim C10: a resumed run over an existing database file never reads the
keywords file — its entire result is independent of the file's contents;
the file is loaded exactly when not resuming or when the database file does
not exist; and a query text present in the file but absent from the store
is never created: after a resumed run no keyword row carries it. -/
theorem c10_resume_ignores_keywords_file (fetch : String → Nat → Nat → FetchResult)
    (sd : Nat → Bool) (kws : List String) (db : DB) (t0 : Nat) :
    (run fetch sd kws true true db t0 = run fetch sd [] true true db t0)
    ∧ (∀ (withResume dbExists : Bool),
        (run fetch sd kws withResume dbExists db t0).loadedFile
          = (!withResume || !dbExists))
    ∧ (∀ kw, kw ∈ kws → (∀ r ∈ db.keywords, r.keyword ≠ kw) →
        ∀ r ∈ (run fetch sd kws true true db t0).db.keywords, r.keyword ≠ kw) := by
  refine ⟨rfl, fun _ _ => rfl, ?_⟩
  intro kw _ habsent r hr hcontra
  have hmem : (r.id, r.keyword) ∈ kwNames (run fetch sd kws true true db t0).db :=
    List.mem_map.mpr ⟨r, hr, rfl⟩
  have hkw : kwNames (run fetch sd kws true true db t0).db = kwNames db := by
    show kwNames (runKeywords fetch sd (get_pending_keywords db) db t0).1 = kwNames db
    exact runKeywords_kwNames fetch sd (get_pending_keywords db) db t0
  rw [hkw] at hmem
  obtain ⟨r', hr', heq⟩ := List.mem_map.mp hmem
  have : r'.keyword = kw := by
    have h2 := congrArg Prod.snd heq
    simpa [hcontra] using h2
  exact habsent r' hr' this

theorem c10_resume_ignores_keywords_file_witness :
    (run (fun _ _ _ => FetchResult.err "e") (fun _ => false) ["new"] true true
        (DB.mk [] [KeywordRow.mk 1 "a" 0 0 .pending none none none] []) 0
      = run (fun _ _ _ => FetchResult.err "e") (fun _ => false) [] true true
        (DB.mk [] [KeywordRow.mk 1 "a" 0 0 .pending none none none] []) 0)
    ∧ (run (fun _ _ _ => FetchResult.err "e") (fun _ => false) ["new"] false true
        (DB.mk [] [KeywordRow.mk 1 "a" 0 0 .pending none none none] []) 0).loadedFile = true
    ∧ ("new" ∈ ["new"]
        ∧ ∀ r ∈ (run (fun _ _ _ => FetchResult.err "e") (fun _ => false) ["new"] true true
            (DB.mk [] [KeywordRow.mk 1 "a" 0 0 .pending none none none] []) 0).db.keywords,
          r.keyword ≠ "new") := by
  refine ⟨?_, ?_, by decide, ?_⟩
  · exact (c10_resume_ignores_keywords_file (fun _ _ _ => FetchResult.err "e") (fun _ => false)
      ["new"] (DB.mk [] [KeywordRow.mk 1 "a" 0 0 .pending none none none] []) 0).1
  · exact (c10_resume_ignores_keywords_file (fun _ _ _ => FetchResult.err "e") (fun _ => false)
      ["new"] (DB.mk [] [KeywordRow.mk 1 "a" 0 0 .pending none none none] []) 0).2.1 false true
  · exact (c10_resume_ignores_keywords_file (fun _ _ _ => FetchResult.err "e") (fun _ => false)
      ["new"] (DB.mk [] [KeywordRow.mk 1 "a" 0 0 .pending none none none] []) 0).2.2 "new"
      (by decide) (by decide)

/-- Claim C9 (counterexample part): the claim says the stored key is the
identifier with any *trailing version suffix* stripped and nothing else
removed.  For the upstream entry id `http://arxiv.org/abs/1v2v3` the
identifier (last path segment) is `1v2v3`; stripping its trailing version
suffix `v3` gives `1v2`, but the code truncates at the *first* `v` and
stores `1`. -/
theorem c9_counterexample :
    extract_arxiv_id ("http://arxiv.org/abs/1v2v3".toList) = "1".toList
    ∧ specStripVersion ("1v2v3".toList) = "1v2".toList
    ∧ extract_arxiv_id ("http://arxiv.org/abs/1v2v3".toList)
        ≠ specStripVersion ("1v2v3".toList) := by
  refine ⟨by decide, by decide, by decide⟩

/-- Claim C9 (amended): the stored key is the last `/`-separated segment of
the entry id truncated at its first `v` (when one occurs).  For identifiers
whose only `v` begins the trailing version suffix — and for identifiers
with no `v` at all — this coincides with stripping any trailing version
suffix and nothing else; and duplicate detection compares only this stored
key: a record whose key equals a stored one is ignored whatever its other
fields. -/
theorem c9_dedup_key (pre b ds : List Char) (dbx : DB) (p q : Paper) :
    ('v' ∉ b → '/' ∉ b → ds ≠ [] → '/' ∉ ds → (∀ ch ∈ ds, ch.isDigit = true) →
        extract_arxiv_id (pre ++ '/' :: (b ++ 'v' :: ds)) = b
        ∧ specStripVersion (b ++ 'v' :: ds) = b)
    ∧ ('v' ∉ b → '/' ∉ b →
        extract_arxiv_id (pre ++ '/' :: b) = b ∧ specStripVersion b = b)
    ∧ (q ∈ dbx.papers → q.arxiv_id = p.arxiv_id → insertPaper dbx p = (dbx, false)) := by
  refine ⟨?_, ?_, ?_⟩
  · intro hb hsb hds hsd hdig
    exact ⟨extract_arxiv_id_versioned pre b ds hb hsb hsd,
      specStripVersion_versioned b ds hds hdig⟩
  · intro hb hsb
    exact ⟨extract_arxiv_id_no_v pre b hb hsb, specStripVersion_no_v b hb⟩
  · intro hq he
    unfold insertPaper
    rw [if_pos ⟨q, hq, he⟩]

theorem c9_dedup_key_witness :
    (extract_arxiv_id ("http://arxiv.org/abs".toList ++ '/' :: ("2301.00001".toList ++ 'v' :: "2".toList))
        = "2301.00001".toList
      ∧ specStripVersion ("2301.00001".toList ++ 'v' :: "2".toList) = "2301.00001".toList)
    ∧ (extract_arxiv_id ("http://arxiv.org/abs".toList ++ '/' :: "quant-ph.0001".toList)
        = "quant-ph.0001".toList
      ∧ specStripVersion ("quant-ph.0001".toList) = "quant-ph.0001".toList)
    ∧ insertPaper (DB.mk [Paper.mk "x1" "t" "a" "s" "c" "" "" "" ""] [] [])
        (Paper.mk "x1" "other title" "other" "other" "other" "" "" "" "")
      = (DB.mk [Paper.mk "x1" "t" "a" "s" "c" "" "" "" ""] [] [], false) := by
  refine ⟨?_, ?_, ?_⟩
  · exact (c9_dedup_key "http://arxiv.org/abs".toList "2301.00001".toList "2".toList
      (DB.mk [] [] []) (Paper.mk "" "" "" "" "" "" "" "" "") (Paper.mk "" "" "" "" "" "" "" "" "")).1
      (by decide) (by decide) (by decide) (by decide) (by decide)
  · exact (c9_dedup_key "http://arxiv.org/abs".toList "quant-ph.0001".toList "2".toList
      (DB.mk [] [] []) (Paper.mk "" "" "" "" "" "" "" "" "") (Paper.mk "" "" "" "" "" "" "" "" "")).2.1
      (by decide) (by decide)
  · exact (c9_dedup_key [] [] [] (DB.mk [Paper.mk "x1" "t" "a" "s" "c" "" "" "" ""] [] [])
      (Paper.mk "x1" "other title" "other" "other" "other" "" "" "" "")
      (Paper.mk "x1" "t" "a" "s" "c" "" "" "" "")).2.2 (by decide) (by decide)

theorem c8_new_count_is_new_links_witness :
    ((store_papers (DB.mk [] [] [("x", 2)]) [Paper.mk "x" "t" "a" "s" "c" "" "" "" "", Paper.mk "x" "t" "a" "s" "c" "" "" "" ""] 2).2
        + (DB.mk [] [] [("x", 2)]).paper_keywords.length
      = ((store_papers (DB.mk [] [] [("x", 2)]) [Paper.mk "x" "t" "a" "s" "c" "" "" "" "", Paper.mk "x" "t" "a" "s" "c" "" "" "" ""] 2).1).paper_keywords.length)
    ∧ (("x", 2) ∈ (DB.mk [] [] [("x", 2)]).paper_keywords
        ∧ linkPaperKeyword (DB.mk [] [] [("x", 2)]) "x" 2 = (DB.mk [] [] [("x", 2)], false)) := by
  refine ⟨(c8_new_count_is_new_links (DB.mk [] [] [("x", 2)]) _ 2).1, by decide,
    (c8_new_count_is_new_links (DB.mk [] [] [("x", 2)]) [] 2).2 "x" 2 (by decide)⟩

end ArxivCollector
